import Mathlib

/-!
Verification of the polymorphic data-access layer of the Go repository
boilerplate-go-api: the generic Repository/Query contract and its two
adapters (GORM relational adapter in libraries/base.go and
libraries/gorm_query.go, MongoDB document adapter in libraries/base.go
and the mongo query file).  Each Go function relevant to the checked
claims is shallowly embedded as an executable Lean definition; database
state is passed explicitly, machine integers are modelled as Int or Nat,
and fallible Go calls return Except or a pair of an optional error and
the resulting store.
-/

/-! ## Error taxonomy (libraries: ErrRecordNotFound, ErrInvalidID, ErrDuplicateRecord)

The package defines three sentinel errors; every other error reaching a
caller is a wrapped lower-level driver error, modelled here by a driver
constructor carrying the message string. -/

inductive RepoError where
  | recordNotFound
  | invalidID
  | duplicateRecord
  | driver (msg : String)
deriving DecidableEq, Repr

/-! ## Pagination executors (GormPaginatedResult.Execute, MongoPaginatedResult.Execute)

Both Execute methods perform: count, clamp page and perPage, compute
offset and totalPages by integer arithmetic, fetch with limit and
offset, and assemble the PaginationMeta struct.  The count result is a
document or row count and hence non-negative, so total is a Nat; page
and perPage arrive from the caller unclamped and may be negative, so
they are Int. -/

structure PaginationMeta where
  page : Int
  perPage : Int
  total : Nat
  totalPages : Nat
  hasNext : Bool
  hasPrev : Bool
deriving DecidableEq, Repr

/-- Embedding of GormPaginatedResult.Execute (libraries/gorm_query.go):
clamps page and perPage, computes totalPages as integer division plus a
remainder correction, builds the meta, and returns it together with the
limit and offset passed to the bounded fetch. -/
def gormPaginatedExecute (page perPage : Int) (total : Nat) :
    PaginationMeta × Int × Int :=
  let page1 := if page < 1 then 1 else page
  let perPage1 := if perPage < 1 then 10 else perPage
  let offset := (page1 - 1) * perPage1
  let totalPages0 := total / perPage1.toNat
  let totalPages :=
    if total % perPage1.toNat > 0 then totalPages0 + 1 else totalPages0
  (⟨page1, perPage1, total, totalPages,
      decide (page1 < (totalPages : Int)), decide (page1 > 1)⟩,
    perPage1, offset)

/-- Embedding of MongoPaginatedResult.Execute (mongo query file): the
same clamping and arithmetic as the relational executor; the skip and
limit set on the underlying query are returned alongside the meta. -/
def mongoPaginatedExecute (page perPage : Int) (total : Nat) :
    PaginationMeta × Int × Int :=
  let page1 := if page < 1 then 1 else page
  let perPage1 := if perPage < 1 then 10 else perPage
  let skip := (page1 - 1) * perPage1
  let totalPages0 := total / perPage1.toNat
  let totalPages :=
    if total % perPage1.toNat > 0 then totalPages0 + 1 else totalPages0
  (⟨page1, perPage1, total, totalPages,
      decide (page1 < (totalPages : Int)), decide (page1 > 1)⟩,
    perPage1, skip)

/-! ## MongoDB ObjectID decoding (MongoRepository.toObjectID)

primitive.ObjectIDFromHex accepts exactly the strings of 24 hexadecimal
characters and decodes them to a 12 byte identifier; hexadecimal
decoding is case insensitive.  An ObjectID is modelled as its byte
list. -/

abbrev ObjectID := List Nat

/-- Value of one hexadecimal digit character, 0 for non-digits. -/
def hexDigitVal (c : Char) : Nat :=
  if '0' ≤ c ∧ c ≤ '9' then c.toNat - '0'.toNat
  else if 'a' ≤ c ∧ c ≤ 'f' then c.toNat - 'a'.toNat + 10
  else if 'A' ≤ c ∧ c ≤ 'F' then c.toNat - 'A'.toNat + 10
  else 0

def isHexDigitChar (c : Char) : Bool :=
  ('0' ≤ c ∧ c ≤ '9') ∨ ('a' ≤ c ∧ c ≤ 'f') ∨ ('A' ≤ c ∧ c ≤ 'F')

/-- Pairs of hex characters decoded to bytes. -/
def hexPairsToBytes : List Char → List Nat
  | c1 :: c2 :: rest => (16 * hexDigitVal c1 + hexDigitVal c2) :: hexPairsToBytes rest
  | _ => []

/-- A string is accepted by ObjectIDFromHex iff it has exactly 24
characters, all hexadecimal. -/
def isValidObjectIDHex (s : String) : Bool :=
  s.length = 24 && s.toList.all isHexDigitChar

/-- Embedding of primitive.ObjectIDFromHex of the mongo driver: decode
24 hex characters to 12 bytes, otherwise fail. -/
def objectIDFromHex (s : String) : Except String ObjectID :=
  if isValidObjectIDHex s then .ok (hexPairsToBytes s.toList)
  else .error "the provided hex string is not a valid ObjectID"

/-- Identifier argument as passed to the repository: Go type any,
either a string, an already decoded ObjectID, or a value of some other
dynamic type (carrying its type name, as printed by reflect.TypeOf). -/
inductive IdArg where
  | str (s : String)
  | oid (o : ObjectID)
  | other (tyName : String)
deriving DecidableEq, Repr

/-- Embedding of MongoRepository.toObjectID (libraries/base.go): a
string goes through ObjectIDFromHex, an ObjectID passes unchanged, any
other type is rejected. -/
def toObjectID (id : IdArg) : Except String ObjectID :=
  match id with
  | .str s => objectIDFromHex s
  | .oid o => .ok o
  | .other tyName => .error ("invalid ID type: " ++ tyName)

/-! ## Dynamic Go values

Scalar values as they travel through the adapters with Go type any.
The int32 and int64 constructors stand for the distinct Go machine
integer types (BSON numbers decode as int32 or int64, never as the Go
type int). -/

inductive GoVal where
  | str (s : String)
  | int (n : Int)
  | int32 (n : Int)
  | int64 (n : Int)
  | bool (b : Bool)
  | null
deriving DecidableEq, Repr

/-! ## Mongo filter documents and boolean composition (MongoQuery.OrWhere)

A bson.M filter is a Go map from keys to values; a value is either a
scalar condition or an array of sub-filters (as stored under the $and,
$or and $nor keys).  A Go map is modelled as an association list with
set-or-replace assignment; matching is insensitive to entry order, as a
Go map is unordered. -/

inductive BVal where
  | v (m : GoVal)
  | arr (fs : List (List (String × BVal)))

abbrev BsonM := List (String × BVal)

/-- Go map assignment m[k] = v: replace the binding when the key is
present, otherwise add it. -/
def mapSet (m : List (String × α)) (k : String) (v : α) : List (String × α) :=
  if (m.lookup k).isSome then
    m.map (fun p => if p.1 = k then (k, v) else p)
  else m ++ [(k, v)]

/-- Embedding of MongoRepository.Where (libraries/base.go): a fresh
query whose filter is the single entry for the field. -/
def mongoRepoWhere (field : String) (value : GoVal) : BsonM :=
  [(field, BVal.v value)]

/-- Embedding of MongoQuery.Where: filter[field] = value. -/
def mongoQueryWhere (field : String) (value : GoVal) (filter : BsonM) : BsonM :=
  mapSet filter field (BVal.v value)

/-- Embedding of MongoQuery.OrWhere (mongo query file): when the filter
has no $or key yet and is non-empty, the whole filter is first moved
under a single $and key; then the new field equality is appended to the
array stored under the $or key (starting from the empty array when the
type assertion on a missing or non-array $or entry yields nil). -/
def mongoOrWhere (field : String) (value : GoVal) (filter : BsonM) : BsonM :=
  let f1 :=
    if (filter.lookup "$or").isSome then filter
    else if filter.length > 0 then [("$and", BVal.arr [filter])]
    else filter
  let orConds :=
    match f1.lookup "$or" with
    | some (BVal.arr l) => l
    | _ => []
  mapSet f1 "$or" (BVal.arr (orConds ++ [[(field, BVal.v value)]]))

/-! ### MongoDB filter matching semantics

A stored document is a list of scalar fields.  A filter document
matches when every entry matches: $and requires all sub-filters, $or
requires at least one, $nor requires none, and any other key is a field
equality test against the document.  This is the standard top-level
semantics of MongoDB find filters: sibling entries of one filter
document are conjoined. -/

abbrev MongoDoc := List (String × GoVal)

mutual

def matchBsonM (doc : MongoDoc) : List (String × BVal) → Bool
  | [] => true
  | (k, c) :: rest => matchBEntry doc k c && matchBsonM doc rest

def matchBEntry (doc : MongoDoc) (k : String) : BVal → Bool
  | .v m => decide (doc.lookup k = some m)
  | .arr fs =>
    if k = "$and" then matchBAll doc fs
    else if k = "$or" then matchBAny doc fs
    else if k = "$nor" then !matchBAny doc fs
    else false

def matchBAll (doc : MongoDoc) : List (List (String × BVal)) → Bool
  | [] => true
  | f :: fs => matchBsonM doc f && matchBAll doc fs

def matchBAny (doc : MongoDoc) : List (List (String × BVal)) → Bool
  | [] => false
  | f :: fs => matchBsonM doc f || matchBAny doc fs

end

/-! ## FindByID on both adapters (claim C3 context)

GormRepository.FindByID (libraries/base.go) hands the raw identifier to
the ORM First call without any inspection or conversion; its only error
normalization maps the gorm record-not-found sentinel to
ErrRecordNotFound and returns every other error of the underlying
ORM/driver call unchanged.  The outcome of that underlying call is
therefore the input of the embedding. -/

inductive GormOutcome (α : Type) where
  | ok (r : α)
  | notFound
  | dbError (msg : String)
deriving DecidableEq, Repr

/-- Embedding of GormRepository.FindByID (libraries/base.go): the error
mapping applied to the outcome of the underlying First call. -/
def gormFindByID {α : Type} (out : GormOutcome α) : Except RepoError α :=
  match out with
  | .ok r => .ok r
  | .notFound => .error .recordNotFound
  | .dbError msg => .error (.driver msg)

/-- Embedding of MongoRepository.FindByID (libraries/base.go): convert
the identifier with toObjectID, mapping any conversion failure to
ErrInvalidID, then look the document up by its _id (FindOne returns the
first match, ErrNoDocuments becomes ErrRecordNotFound). -/
def mongoFindByID {α : Type} (coll : List (ObjectID × α)) (id : IdArg) :
    Except RepoError α :=
  match toObjectID id with
  | .error _ => .error .invalidID
  | .ok oid =>
    match coll.find? (fun p => p.1 == oid) with
    | none => .error .recordNotFound
    | some p => .ok p.2

/-! ## Update and Delete by identifier (claim C4 context)

The relational UPDATE merges the non-zero fields of the data struct
into every row whose id column equals the given id; the merge itself is
the ORM Updates semantics and is kept abstract as a function argument.
RowsAffected is the number of matched rows. -/

/-- Embedding of GormRepository.Update (libraries/base.go): issue the
UPDATE for the rows with the given id, then report ErrRecordNotFound
when zero rows were affected. -/
def gormUpdate {α : Type} (upd : α → α → α) (table : List (Nat × α))
    (id : Nat) (data : α) : Except RepoError (List (Nat × α)) :=
  let updated := table.map (fun p => if p.1 = id then (p.1, upd p.2 data) else p)
  if table.countP (fun p => p.1 == id) = 0 then .error .recordNotFound
  else .ok updated

/-- Embedding of GormRepository.Delete (libraries/base.go): delete the
rows with the given primary key, then report ErrRecordNotFound when
zero rows were affected. -/
def gormDelete {α : Type} (table : List (Nat × α)) (id : Nat) :
    Except RepoError (List (Nat × α)) :=
  if table.countP (fun p => p.1 == id) = 0 then .error .recordNotFound
  else .ok (table.filter (fun p => !(p.1 == id)))

/-- ReplaceOne on the _id filter: replace the first document carrying
the identifier, leave the collection unchanged when none does. -/
def replaceFirst {α : Type} : List (ObjectID × α) → ObjectID → α → List (ObjectID × α)
  | [], _, _ => []
  | p :: rest, oid, d =>
    if p.1 == oid then (oid, d) :: rest else p :: replaceFirst rest oid d

/-- DeleteOne on the _id filter: remove the first document carrying the
identifier, leave the collection unchanged when none does. -/
def deleteFirst {α : Type} : List (ObjectID × α) → ObjectID → List (ObjectID × α)
  | [], _ => []
  | p :: rest, oid => if p.1 == oid then rest else p :: deleteFirst rest oid

/-- Embedding of MongoRepository.Update (libraries/base.go): convert
the identifier (failure becomes ErrInvalidID), then issue ReplaceOne on
the _id filter; the matched count of the replace is not inspected, so
the call succeeds even when no document matched. -/
def mongoUpdate {α : Type} (coll : List (ObjectID × α)) (id : IdArg) (data : α) :
    Except RepoError (List (ObjectID × α)) :=
  match toObjectID id with
  | .error _ => .error .invalidID
  | .ok oid => .ok (replaceFirst coll oid data)

/-- Embedding of MongoRepository.Delete (libraries/base.go): convert
the identifier (failure becomes ErrInvalidID), then issue DeleteOne on
the _id filter; the deleted count is not inspected, so the call
succeeds even when no document matched. -/
def mongoDelete {α : Type} (coll : List (ObjectID × α)) (id : IdArg) :
    Except RepoError (List (ObjectID × α)) :=
  match toObjectID id with
  | .error _ => .error .invalidID
  | .ok oid => .ok (deleteFirst coll oid)

/-! ## Relational batch update (GormRepository.UpdateBatch, claim C5 context)

The per-row statement is the same UPDATE as in gormUpdate, here subject
to a CHECK style column constraint of the table schema (the failure
mode named by the specification is a constraint violation): when an
updated row would violate the constraint, the statement fails and the
transaction working state is unchanged. -/

/-- One UPDATE statement inside the transaction: merge the data into
every row whose id matches; fail with a constraint violation when a
resulting row violates the schema constraint. -/
def sqlUpdateRows {α : Type} (upd : α → α → α) (ok : α → Bool)
    (table : List (Nat × α)) (id : Nat) (data : α) :
    Except String (List (Nat × α)) :=
  if (table.filter (fun p => p.1 == id)).all (fun p => ok (upd p.2 data)) then
    .ok (table.map (fun p => if p.1 = id then (p.1, upd p.2 data) else p))
  else .error "constraint violation"

/-- The loop of GormRepository.UpdateBatch running inside the open
transaction: base is the committed state at Begin, working the state
seen by the transaction.  A failing statement triggers tx.Rollback, so
the committed state stays base; reaching the end triggers tx.Commit,
installing the working state. -/
def gormUpdateBatchLoop {α : Type} (upd : α → α → α) (ok : α → Bool)
    (base : List (Nat × α)) :
    List (Nat × α) → List Nat → List α → Option String × List (Nat × α)
  | working, [], _ => (none, working)
  | working, _ :: _, [] => (none, working)
  | working, id :: ids, d :: ds =>
    match sqlUpdateRows upd ok working id d with
    | .error e => (some e, base)
    | .ok w => gormUpdateBatchLoop upd ok base w ids ds

/-- Embedding of GormRepository.UpdateBatch (libraries/base.go):
reject mismatched lengths before touching the store, then Begin a
transaction, run every per-id update inside it, Rollback on the first
failure and Commit otherwise.  The result is the returned error (none
on success) together with the committed table state. -/
def gormUpdateBatch {α : Type} (upd : α → α → α) (ok : α → Bool)
    (table : List (Nat × α)) (ids : List Nat) (data : List α) :
    Option String × List (Nat × α) :=
  if ids.length ≠ data.length then
    (some "ids and data must have the same length", table)
  else gormUpdateBatchLoop upd ok table table ids data

/-! ## Document batch mutation (MongoRepository.UpdateBatch and
DeleteBatch, claim C6 context) -/

/-- The loop of MongoRepository.UpdateBatch: for each identifier in
order, convert it (a failure returns ErrInvalidID immediately, keeping
every already performed replace), then issue ReplaceOne against the
live collection: each replace commits immediately, there is no
enclosing transaction. -/
def mongoUpdateBatchLoop {α : Type} :
    List (ObjectID × α) → List IdArg → List α → Option RepoError × List (ObjectID × α)
  | coll, [], _ => (none, coll)
  | coll, _ :: _, [] => (none, coll)
  | coll, id :: ids, d :: ds =>
    match toObjectID id with
    | .error _ => (some .invalidID, coll)
    | .ok oid => mongoUpdateBatchLoop (replaceFirst coll oid d) ids ds

/-- Embedding of MongoRepository.UpdateBatch (libraries/base.go):
length check, then the sequential per-identifier loop. -/
def mongoUpdateBatch {α : Type} (coll : List (ObjectID × α))
    (ids : List IdArg) (data : List α) : Option RepoError × List (ObjectID × α) :=
  if ids.length ≠ data.length then
    (some (.driver "ids and data length mismatch"), coll)
  else mongoUpdateBatchLoop coll ids data

/-- The conversion loop of MongoRepository.DeleteBatch: identifiers are
converted sequentially; the first invalid one aborts the call with
ErrInvalidID before any deletion is issued. -/
def collectObjectIDs : List IdArg → Except RepoError (List ObjectID)
  | [] => .ok []
  | id :: ids =>
    match toObjectID id with
    | .error _ => .error .invalidID
    | .ok oid => (collectObjectIDs ids).map (fun rest => oid :: rest)

/-- Embedding of MongoRepository.DeleteBatch (libraries/base.go):
convert every identifier first, then issue one DeleteMany whose filter
matches any of the collected identifiers. -/
def mongoDeleteBatch {α : Type} (coll : List (ObjectID × α)) (ids : List IdArg) :
    Option RepoError × List (ObjectID × α) :=
  match collectObjectIDs ids with
  | .error e => (some e, coll)
  | .ok oids => (none, coll.filter (fun p => !(oids.contains p.1)))

/-! ## Atomic counters (Increment and Decrement, claim C7 context)

Records are modelled as total maps from field names to integer values:
a relational column always exists, and the claim concerns fields that
hold a value.  Server side arithmetic is unbounded integer
arithmetic. -/

abbrev NumRec := String → Int

/-- Embedding of GormRepository.Increment (libraries/base.go): a single
UPDATE setting field = field + value on the rows whose id matches. -/
def gormIncrement (table : List (Nat × NumRec)) (id : Nat) (field : String)
    (value : Int) : List (Nat × NumRec) :=
  table.map (fun p =>
    if p.1 = id then
      (p.1, fun f => if f = field then p.2 f + value else p.2 f)
    else p)

/-- Embedding of GormRepository.Decrement (libraries/base.go): a single
UPDATE setting field = field - value on the rows whose id matches. -/
def gormDecrement (table : List (Nat × NumRec)) (id : Nat) (field : String)
    (value : Int) : List (Nat × NumRec) :=
  table.map (fun p =>
    if p.1 = id then
      (p.1, fun f => if f = field then p.2 f - value else p.2 f)
    else p)

/-- UpdateOne with a $inc document: add the value to the field of the
first document carrying the identifier. -/
def incFirst : List (ObjectID × NumRec) → ObjectID → String → Int → List (ObjectID × NumRec)
  | [], _, _, _ => []
  | p :: rest, oid, field, value =>
    if p.1 == oid then
      (p.1, fun f => if f = field then p.2 f + value else p.2 f) :: rest
    else p :: incFirst rest oid field value

/-- Embedding of MongoRepository.Increment (libraries/base.go): convert
the identifier (failure becomes ErrInvalidID), then UpdateOne with a
$inc update document. -/
def mongoIncrement (coll : List (ObjectID × NumRec)) (id : IdArg)
    (field : String) (value : Int) : Except RepoError (List (ObjectID × NumRec)) :=
  match toObjectID id with
  | .error _ => .error .invalidID
  | .ok oid => .ok (incFirst coll oid field value)

/-- Embedding of MongoRepository.Decrement (libraries/base.go): defined
in the source as Increment with the negated value. -/
def mongoDecrement (coll : List (ObjectID × NumRec)) (id : IdArg)
    (field : String) (value : Int) : Except RepoError (List (ObjectID × NumRec)) :=
  mongoIncrement coll id field (-value)

/-! ## Like-style text matching (MongoQuery.WhereLike and toBSONFilter,
claim C8 context)

For this fragment a filter entry is modelled at the condition layer:
the BSON condition document placed under a field key. -/

inductive BCond where
  | eqv (v : GoVal)
  | gt (v : GoVal)
  | gte (v : GoVal)
  | lt (v : GoVal)
  | lte (v : GoVal)
  | ne (v : GoVal)
  | regex (pattern opts : String)
  | notRegex (pattern opts : String)
  | inList (v : GoVal)
  | ninList (v : GoVal)
deriving DecidableEq, Repr

/-- Go fmt.Sprintf with the %v verb on a dynamic scalar. -/
def goFormat : GoVal → String
  | .str s => s
  | .int n => toString n
  | .int32 n => toString n
  | .int64 n => toString n
  | .bool b => if b then "true" else "false"
  | .null => "<nil>"

/-- Go strings.ReplaceAll for a single-character pattern (the only
shape used by the like conversions: the percent and underscore
wildcards), written at the character-list level. -/
def replaceAllList (pat : Char) (rep : List Char) : List Char → List Char
  | [] => []
  | c :: cs => (if c = pat then rep else [c]) ++ replaceAllList pat rep cs

/-- Go strings.ReplaceAll with a one-character pattern. -/
def goReplaceAll (s : String) (pat : Char) (rep : String) : String :=
  ⟨replaceAllList pat rep.data s.data⟩

/-- Embedding of the conversion performed by MongoQuery.WhereLike: the
SQL wildcard percent becomes dot-star and the SQL wildcard underscore
becomes dot (strings.ReplaceAll, applied in this order). -/
def sqlLikeToRegex (pattern : String) : String :=
  goReplaceAll (goReplaceAll pattern '%' ".*") '_' "."

/-- Embedding of MongoQuery.WhereLike (mongo query file): sets
filter[field] to a case insensitive regex condition built with both
wildcard replacements. -/
def mongoWhereLike (field pattern : String) (filter : List (String × BCond)) :
    List (String × BCond) :=
  mapSet filter field (BCond.regex (sqlLikeToRegex pattern) "i")

/-- Embedding of toBSONFilter (mongo query file): operator dispatch to
a BSON condition; in the LIKE and NOT LIKE branches only the percent
wildcard is replaced (the underscore is left as it is), and the case
insensitive option is set. -/
def toBSONFilter (field operator : String) (value : GoVal) : String × BCond :=
  match operator with
  | "=" => (field, .eqv value)
  | "==" => (field, .eqv value)
  | ">" => (field, .gt value)
  | ">=" => (field, .gte value)
  | "<" => (field, .lt value)
  | "<=" => (field, .lte value)
  | "!=" => (field, .ne value)
  | "<>" => (field, .ne value)
  | "LIKE" => (field, .regex (goReplaceAll (goFormat value) '%' ".*") "i")
  | "NOT LIKE" => (field, .notRegex (goReplaceAll (goFormat value) '%' ".*") "i")
  | "IN" => (field, .inList value)
  | "NOT IN" => (field, .ninList value)
  | _ => (field, .eqv value)

/-! ## Pluck type narrowing (claim C9 context)

MongoRepository.Pluck projects one field of every document and keeps
the values of the documents in which the field is present;
PluckString and PluckInt then keep the values whose dynamic Go type is
string respectively int (a Go type assertion, which never fails the
call).  GormRepository.PluckString and PluckInt instead pass a typed
destination slice to the ORM Pluck: each row value is scanned by the
database/sql conversion (modelled here from the documented
convertAssign rules: integers print into a string destination, text
parses into an integer destination, NULL and non-numeric text are scan
errors); a scan error fails the whole call, the repository code
contains no per-value dropping logic. -/

/-- Embedding of MongoRepository.Pluck (libraries/base.go): the values
of the projected field, in document order, for the documents that have
the field. -/
def mongoPluck (field : String) (docs : List MongoDoc) : List GoVal :=
  docs.filterMap (fun doc => doc.lookup field)

/-- Embedding of MongoRepository.PluckString (libraries/base.go): keep
the plucked values whose dynamic type is string. -/
def mongoPluckString (field : String) (docs : List MongoDoc) : List String :=
  (mongoPluck field docs).filterMap (fun v =>
    match v with
    | .str s => some s
    | _ => none)

/-- Embedding of MongoRepository.PluckInt (libraries/base.go): keep the
plucked values whose dynamic type is the Go type int. -/
def mongoPluckInt (field : String) (docs : List MongoDoc) : List Int :=
  (mongoPluck field docs).filterMap (fun v =>
    match v with
    | .int n => some n
    | _ => none)

/-- A relational column value as delivered by the driver. -/
inductive SQLVal where
  | null
  | int (n : Int)
  | text (s : String)
deriving DecidableEq, Repr

/-- database/sql scan of one column value into an int destination. -/
def scanInt : SQLVal → Except String Int
  | .null => .error "sql: Scan error: converting NULL to int is unsupported"
  | .int n => .ok n
  | .text s =>
    match s.toInt? with
    | some n => .ok n
    | none => .error "sql: Scan error: converting string to int: invalid syntax"

/-- database/sql scan of one column value into a string destination. -/
def scanString : SQLVal → Except String String
  | .null => .error "sql: Scan error: converting NULL to string is unsupported"
  | .int n => .ok (toString n)
  | .text s => .ok s

/-- Embedding of GormRepository.PluckInt (libraries/base.go): scan the
whole column into the typed destination; the first value that fails to
convert fails the call. -/
def gormPluckInt (column : List SQLVal) : Except String (List Int) :=
  column.mapM scanInt

/-- Embedding of GormRepository.PluckString (libraries/base.go): scan
the whole column into the typed destination; the first value that
fails to convert fails the call. -/
def gormPluckString (column : List SQLVal) : Except String (List String) :=
  column.mapM scanString

/-! ## Query-level Update (MongoQuery.Update and GormQuery.Update,
claim C10 context)

MongoQuery.Update first assigns the current time into the caller map
under the updated_at key (a Go map is a reference, so the caller
observes the insertion), then issues UpdateMany with a single $set
whose document is that same map.  GormQuery.Update passes the caller
map to the ORM Updates call without mutating it; however the Updates
call is issued through Model on the bound record type, and every
record type bound to this adapter in the repository (User, Session,
Permission) declares an UpdatedAt field, so GORM v2 timestamp tracking
appends an automatic updated_at assignment to the generated UPDATE
whenever the caller map does not assign that column itself (a
caller-supplied assignment wins).  The current time is modelled as an
int64 value (the primitive.DateTime milliseconds for the document
adapter, the tracked time value for the relational one). -/

inductive UpdateOp where
  | set (doc : List (String × GoVal))
deriving DecidableEq, Repr

structure QueryUpdateCall where
  op : UpdateOp
  dataAfter : List (String × GoVal)
deriving DecidableEq, Repr

/-- Embedding of MongoQuery.Update (mongo query file): insert
updated_at = now into the caller map, then a single $set of exactly
that map; the mutated caller map is returned alongside. -/
def mongoQueryUpdate (data : List (String × GoVal)) (now : Int) : QueryUpdateCall :=
  let d := mapSet data "updated_at" (GoVal.int64 now)
  ⟨UpdateOp.set d, d⟩

/-- The SET assignments of the UPDATE generated by the GORM v2 Updates
call with a map argument, for a bound model with an UpdatedAt field:
the assignments of the caller map, plus an automatic updated_at
assignment when the map has none. -/
def gormUpdateWrites (data : List (String × GoVal)) (now : Int) :
    List (String × GoVal) :=
  if (data.lookup "updated_at").isSome then data
  else data ++ [("updated_at", GoVal.int64 now)]

/-- Embedding of GormQuery.Update (libraries/gorm_query.go): the ORM
Updates call receives the caller map and does not mutate it; the
written assignments are the caller assignments plus the automatic
updated_at of GORM timestamp tracking (gormUpdateWrites). -/
def gormQueryUpdate (data : List (String × GoVal)) (now : Int) : QueryUpdateCall :=
  ⟨UpdateOp.set (gormUpdateWrites data now), data⟩

/-! ## Derived helpers used to state the batch theorems -/

/-- Sequential application of per-id UPDATE merges, used to state the
success case of the relational batch update. -/
def applyUpdates {α : Type} (upd : α → α → α) (table : List (Nat × α))
    (pairs : List (Nat × α)) : List (Nat × α) :=
  pairs.foldl
    (fun t q => t.map (fun p => if p.1 = q.1 then (p.1, upd p.2 q.2) else p))
    table

/-- Sequential application of per-identifier ReplaceOne calls, used to
state which mutations of the document batch update have committed. -/
def applyReplaces {α : Type} (coll : List (ObjectID × α))
    (pairs : List (IdArg × α)) : List (ObjectID × α) :=
  pairs.foldl
    (fun c q =>
      match toObjectID q.1 with
      | .ok oid => replaceFirst c oid q.2
      | .error _ => c)
    coll

/-- Whether the adapter accepts the identifier (toObjectID succeeds). -/
def idValid (id : IdArg) : Bool :=
  match toObjectID id with
  | .ok _ => true
  | .error _ => false

/-- Whether one column value scans into an int destination. -/
def scanIntOk (v : SQLVal) : Bool :=
  match scanInt v with
  | .ok _ => true
  | .error _ => false

/-- Whether one column value scans into a string destination. -/
def scanStringOk (v : SQLVal) : Bool :=
  match scanString v with
  | .ok _ => true
  | .error _ => false

/-! # Theorems -/

/-- Integer-arithmetic totalPages (division plus remainder correction)
equals the ceiling of total divided by perPage. -/
theorem ceilDiv_eq (a b : Nat) (hb : 0 < b) :
    a / b + (if 0 < a % b then 1 else 0) = (a + b - 1) / b := by
  rcases Nat.eq_zero_or_pos (a % b) with h | h
  · obtain ⟨q, rfl⟩ := Nat.dvd_of_mod_eq_zero h
    have e1 : b * q / b = q := Nat.mul_div_cancel_left q hb
    have e2 : (b * q + b - 1) / b = q := by
      have h1 : b * q + b - 1 = b * q + (b - 1) := by omega
      rw [h1, Nat.mul_add_div hb, Nat.div_eq_of_lt (show b - 1 < b by omega)]
      omega
    rw [h, if_neg (Nat.lt_irrefl 0), Nat.add_zero, e1, e2]
  · rw [if_pos h]
    have hrb : a % b < b := Nat.mod_lt _ hb
    have hd := Nat.div_add_mod a b
    have e2 : (a + b - 1) / b = a / b + 1 := by
      have hm : b * (a / b + 1) = b * (a / b) + b := by ring
      have h2 : a + b - 1 = b * (a / b + 1) + (a % b - 1) := by omega
      rw [h2, Nat.mul_add_div hb, Nat.div_eq_of_lt (show a % b - 1 < b by omega)]
    rw [e2]

/-- C2: on both adapters, Paginate(page, perPage).Execute clamps page
below 1 to 1 and perPage below 1 to 10, reports the unclamped-free meta
with totalPages equal to the integer ceiling of total over the clamped
perPage, hasNext iff page is below totalPages, hasPrev iff page exceeds
1, and issues the bounded fetch with limit perPage and offset
(page - 1) * perPage; concretely, total 57 with perPage 20 gives
totalPages 3, hasNext true at page 1 and false at page 3, hasPrev false
at page 1 and true at page 2. -/
theorem C2_pagination_execute (page perPage : Int) (total : Nat) :
    mongoPaginatedExecute page perPage total = gormPaginatedExecute page perPage total ∧
    (gormPaginatedExecute page perPage total).1.page = (if page < 1 then 1 else page) ∧
    (gormPaginatedExecute page perPage total).1.perPage = (if perPage < 1 then 10 else perPage) ∧
    (gormPaginatedExecute page perPage total).1.total = total ∧
    (gormPaginatedExecute page perPage total).1.totalPages =
      (total + (gormPaginatedExecute page perPage total).1.perPage.toNat - 1) /
        (gormPaginatedExecute page perPage total).1.perPage.toNat ∧
    ((gormPaginatedExecute page perPage total).1.hasNext = true ↔
      (gormPaginatedExecute page perPage total).1.page <
        ((gormPaginatedExecute page perPage total).1.totalPages : Int)) ∧
    ((gormPaginatedExecute page perPage total).1.hasPrev = true ↔
      1 < (gormPaginatedExecute page perPage total).1.page) ∧
    (gormPaginatedExecute page perPage total).2.1 =
      (gormPaginatedExecute page perPage total).1.perPage ∧
    (gormPaginatedExecute page perPage total).2.2 =
      ((gormPaginatedExecute page perPage total).1.page - 1) *
        (gormPaginatedExecute page perPage total).1.perPage ∧
    ((gormPaginatedExecute 1 20 57).1.totalPages = 3 ∧
      (mongoPaginatedExecute 1 20 57).1.totalPages = 3 ∧
      (gormPaginatedExecute 1 20 57).1.hasNext = true ∧
      (gormPaginatedExecute 3 20 57).1.hasNext = false ∧
      (gormPaginatedExecute 1 20 57).1.hasPrev = false ∧
      (gormPaginatedExecute 2 20 57).1.hasPrev = true) := by
  have hper : (1:Int) ≤ (if perPage < 1 then 10 else perPage) := by
    split <;> omega
  have hb : 0 < (if perPage < 1 then (10:Int) else perPage).toNat := by omega
  refine ⟨rfl, ?_⟩
  dsimp only [gormPaginatedExecute, mongoPaginatedExecute]
  refine ⟨rfl, rfl, rfl, ?_, ?_, ?_, rfl, rfl, by decide⟩
  · simp only [gt_iff_lt]
    rw [← ceilDiv_eq total _ hb]
    rcases Nat.eq_zero_or_pos
        (total % (if perPage < 1 then (10:Int) else perPage).toNat) with hm | hm
    · rw [hm, if_neg (Nat.lt_irrefl 0), if_neg (Nat.lt_irrefl 0)]
      omega
    · rw [if_pos hm, if_pos hm]
  · simp
  · simp [gt_iff_lt]

/-- C1: the claim fails on the document adapter (code bug).  The filter
built by Where(role, admin) followed by OrWhere(role, moderator) keeps
the previously accumulated predicate as a top-level $and entry next to
a $or entry holding only the new condition; sibling entries of one
MongoDB filter document are conjoined, so the query demands
role = admin AND role = moderator: a document whose role is moderator
does not match, a document whose role is admin does not match either,
and for every document the filter is the conjunction of the two
equality tests, not their disjunction. -/
theorem C1_mongo_orWhere_conjoins :
    matchBsonM [("role", GoVal.str "moderator")]
      (mongoOrWhere "role" (.str "moderator") (mongoRepoWhere "role" (.str "admin"))) = false ∧
    matchBsonM [("role", GoVal.str "admin")]
      (mongoOrWhere "role" (.str "moderator") (mongoRepoWhere "role" (.str "admin"))) = false ∧
    (∀ doc : MongoDoc,
      matchBsonM doc
        (mongoOrWhere "role" (.str "moderator") (mongoRepoWhere "role" (.str "admin"))) =
      (decide (doc.lookup "role" = some (GoVal.str "admin")) &&
        decide (doc.lookup "role" = some (GoVal.str "moderator")))) := by
  refine ⟨by decide, by decide, ?_⟩
  intro doc
  simp [mongoOrWhere, mongoRepoWhere, mapSet, matchBsonM, matchBEntry, matchBAll, matchBAny]

/-- C3 counterexample: GormRepository.FindByID never inspects the raw
identifier; with the non-numeric id string abc the underlying ORM call
produces a driver syntax-error outcome, and FindByID returns that
driver error unchanged, not the InvalidID taxonomy error that the claim
requires. -/
theorem C3_gorm_findByID_counterexample :
    gormFindByID (α := Unit)
        (GormOutcome.dbError "invalid input syntax for type bigint: abc") =
      Except.error (RepoError.driver "invalid input syntax for type bigint: abc") ∧
    RepoError.driver "invalid input syntax for type bigint: abc" ≠ RepoError.invalidID := by
  exact ⟨rfl, by decide⟩

/-- C3 amended: the document adapter returns InvalidID on every string
that is not 24 hexadecimal characters, for every collection state; the
relational adapter performs no identifier validation and can never
return InvalidID: it maps the not-found sentinel of the underlying call
to RecordNotFound and passes every other outcome through. -/
theorem C3_invalid_id_handling :
    (∀ (α : Type) (coll : List (ObjectID × α)) (s : String),
      isValidObjectIDHex s = false →
        mongoFindByID coll (.str s) = .error .invalidID) ∧
    (∀ (α : Type) (out : GormOutcome α),
      gormFindByID out ≠ .error .invalidID) := by
  constructor
  · intro α coll s hs
    simp [mongoFindByID, toObjectID, objectIDFromHex, hs]
  · intro α out
    cases out <;> simp [gormFindByID]

theorem C3_invalid_id_handling_witness :
    isValidObjectIDHex "user-42" = false ∧
    mongoFindByID ([] : List (ObjectID × Unit)) (.str "user-42") =
      .error .invalidID :=
  ⟨by decide, C3_invalid_id_handling.1 Unit [] "user-42" (by decide)⟩

/-- Updating the matching rows of a table leaves the lookup of every
other key unchanged. -/
theorem lookup_map_update {α : Type} (table : List (Nat × α)) (i k : Nat)
    (f : α → α) (hk : k ≠ i) :
    (table.map (fun p => if p.1 = i then (p.1, f p.2) else p)).lookup k =
      table.lookup k := by
  induction table with
  | nil => rfl
  | cons p t ih =>
    obtain ⟨a, b⟩ := p
    simp only [List.map_cons]
    by_cases hp : a = i
    · subst hp
      rw [show (if ((a, b) : Nat × α).1 = a then (((a, b) : Nat × α).1, f ((a, b) : Nat × α).2) else ((a, b) : Nat × α)) = (a, f b) from if_pos rfl]
      have hk2 : (k == a) = false := by simp [hk]
      simp [List.lookup, hk2, ih]
    · rw [show (if ((a, b) : Nat × α).1 = i then (((a, b) : Nat × α).1, f ((a, b) : Nat × α).2) else ((a, b) : Nat × α)) = (a, b) from if_neg hp]
      cases hka : k == a
      · simp [List.lookup, hka, ih]
      · simp [List.lookup, hka]

/-- Filtering out the rows with the given id leaves the lookup of
every other key unchanged. -/
theorem lookup_filter_ne {α : Type} (table : List (Nat × α)) (i k : Nat)
    (hk : k ≠ i) :
    (table.filter (fun p => !(p.1 == i))).lookup k = table.lookup k := by
  induction table with
  | nil => rfl
  | cons p t ih =>
    obtain ⟨a, b⟩ := p
    by_cases hp : a = i
    · subst hp
      have hk2 : (k == a) = false := by simp [hk]
      simp [List.filter_cons, List.lookup, hk2, ih]
    · have ha2 : (a == i) = false := by simp [hp]
      cases hka : k == a
      · simp [List.filter_cons, List.lookup, ha2, hka, ih]
      · simp [List.filter_cons, List.lookup, ha2, hka]

/-- ReplaceOne on an identifier matching no document is the
identity. -/
theorem replaceFirst_no_match {α : Type} (coll : List (ObjectID × α))
    (oid : ObjectID) (d : α) (h : ∀ p ∈ coll, p.1 ≠ oid) :
    replaceFirst coll oid d = coll := by
  induction coll with
  | nil => rfl
  | cons p t ih =>
    have hp : p.1 ≠ oid := h p (List.mem_cons_self p t)
    simp only [replaceFirst, show (p.1 == oid) = false by simp [hp],
      Bool.false_eq_true, if_false]
    rw [ih (fun q hq => h q (List.mem_cons_of_mem p hq))]

/-- DeleteOne on an identifier matching no document is the
identity. -/
theorem deleteFirst_no_match {α : Type} (coll : List (ObjectID × α))
    (oid : ObjectID) (h : ∀ p ∈ coll, p.1 ≠ oid) :
    deleteFirst coll oid = coll := by
  induction coll with
  | nil => rfl
  | cons p t ih =>
    have hp : p.1 ≠ oid := h p (List.mem_cons_self p t)
    simp only [deleteFirst, show (p.1 == oid) = false by simp [hp],
      Bool.false_eq_true, if_false]
    rw [ih (fun q hq => h q (List.mem_cons_of_mem p hq))]

/-- ReplaceOne leaves the lookup of every other identifier
unchanged. -/
theorem lookup_replaceFirst_ne {α : Type} (coll : List (ObjectID × α))
    (oid k : ObjectID) (d : α) (hk : k ≠ oid) :
    (replaceFirst coll oid d).lookup k = coll.lookup k := by
  induction coll with
  | nil => rfl
  | cons p t ih =>
    obtain ⟨a, b⟩ := p
    by_cases hp : a = oid
    · subst hp
      have hka : (k == a) = false := by simp [hk]
      simp [replaceFirst, List.lookup, hka]
    · have hao : (a == oid) = false := by simp [hp]
      cases hka : k == a
      · simp [replaceFirst, List.lookup, hao, hka, ih]
      · simp [replaceFirst, List.lookup, hao, hka]

/-- DeleteOne leaves the lookup of every other identifier
unchanged. -/
theorem lookup_deleteFirst_ne {α : Type} (coll : List (ObjectID × α))
    (oid k : ObjectID) (hk : k ≠ oid) :
    (deleteFirst coll oid).lookup k = coll.lookup k := by
  induction coll with
  | nil => rfl
  | cons p t ih =>
    obtain ⟨a, b⟩ := p
    by_cases hp : a = oid
    · subst hp
      have hka : (k == a) = false := by simp [hk]
      simp [deleteFirst, List.lookup, hka]
    · have hao : (a == oid) = false := by simp [hp]
      cases hka : k == a
      · simp [deleteFirst, List.lookup, hao, hka, ih]
      · simp [deleteFirst, List.lookup, hao, hka]

/-- C4 counterexample: on the document adapter with an empty collection
(zero documents match the valid identifier), Update and Delete both
return success, not the RecordNotFound error the claim requires: the
matched and deleted counts of ReplaceOne and DeleteOne are never
inspected. -/
theorem C4_mongo_update_delete_counterexample :
    mongoUpdate ([] : List (ObjectID × Unit)) (.str "507f1f77bcf86cd799439011") () =
      .ok [] ∧
    mongoDelete ([] : List (ObjectID × Unit)) (.str "507f1f77bcf86cd799439011") =
      .ok [] ∧
    (Except.ok [] : Except RepoError (List (ObjectID × Unit))) ≠
      .error .recordNotFound := by
  refine ⟨rfl, rfl, fun h => nomatch h⟩

/-- C4 amended: the relational adapter reports RecordNotFound exactly
when zero rows match the id, and a successful Update or Delete leaves
every row with a different id untouched; the document adapter never
reports RecordNotFound from Update or Delete: with a valid identifier
matching no document both calls succeed and leave the collection
unchanged, and in general they mutate at most the document carrying the
identifier. -/
theorem C4_update_delete_amended :
    (∀ (α : Type) (upd : α → α → α) (table : List (Nat × α)) (i : Nat) (data : α),
      (gormUpdate upd table i data = .error .recordNotFound ↔
        table.countP (fun p => p.1 == i) = 0) ∧
      (∀ st', gormUpdate upd table i data = .ok st' →
        ∀ k, k ≠ i → st'.lookup k = table.lookup k)) ∧
    (∀ (α : Type) (table : List (Nat × α)) (i : Nat),
      (gormDelete table i = .error .recordNotFound ↔
        table.countP (fun p => p.1 == i) = 0) ∧
      (∀ st', gormDelete table i = .ok st' →
        ∀ k, k ≠ i → st'.lookup k = table.lookup k)) ∧
    (∀ (α : Type) (coll : List (ObjectID × α)) (i : IdArg) (d : α),
      mongoUpdate coll i d ≠ .error .recordNotFound ∧
      mongoDelete coll i ≠ .error .recordNotFound) ∧
    (∀ (α : Type) (coll : List (ObjectID × α)) (oid : ObjectID) (d : α),
      ((∀ p ∈ coll, p.1 ≠ oid) →
        mongoUpdate coll (.oid oid) d = .ok coll ∧
        mongoDelete coll (.oid oid) = .ok coll) ∧
      (∀ k, k ≠ oid →
        (replaceFirst coll oid d).lookup k = coll.lookup k ∧
        (deleteFirst coll oid).lookup k = coll.lookup k)) := by
  refine ⟨?_, ?_, ?_, ?_⟩
  · intro α upd table i data
    constructor
    · by_cases hc : table.countP (fun p => p.1 == i) = 0 <;> simp [gormUpdate, hc]
    · intro st' h k hk
      by_cases hc : table.countP (fun p => p.1 == i) = 0
      · simp [gormUpdate, hc] at h
      · simp only [gormUpdate, if_neg hc, Except.ok.injEq] at h
        subst h
        exact lookup_map_update table i k (fun x => upd x data) hk
  · intro α table i
    constructor
    · by_cases hc : table.countP (fun p => p.1 == i) = 0 <;> simp [gormDelete, hc]
    · intro st' h k hk
      by_cases hc : table.countP (fun p => p.1 == i) = 0
      · simp [gormDelete, hc] at h
      · simp only [gormDelete, if_neg hc, Except.ok.injEq] at h
        subst h
        exact lookup_filter_ne table i k hk
  · intro α coll i d
    cases hi : toObjectID i <;> simp [mongoUpdate, mongoDelete, hi]
  · intro α coll oid d
    constructor
    · intro h
      constructor
      · show Except.ok (replaceFirst coll oid d) = .ok coll
        rw [replaceFirst_no_match coll oid d h]
      · show Except.ok (deleteFirst coll oid) = .ok coll
        rw [deleteFirst_no_match coll oid h]
    · intro k hk
      exact ⟨lookup_replaceFirst_ne coll oid k d hk, lookup_deleteFirst_ne coll oid k hk⟩

theorem C4_update_delete_amended_witness :
    ([((2 : Nat), (0 : Int))].countP (fun p => p.1 == 1) = 0) ∧
    gormUpdate (fun a _ => a) [((2 : Nat), (0 : Int))] 1 5 = .error .recordNotFound :=
  ⟨by decide,
    (C4_update_delete_amended.1 Int (fun a _ => a) [(2, 0)] 1 5).1.mpr (by decide)⟩

/-- The transaction loop of the relational batch update: a failing step
rolls back to the base state and surfaces the error of that step; when
every step succeeds the working state with all updates applied is
committed. -/
theorem gormUpdateBatchLoop_spec {α : Type} (upd : α → α → α) (ok : α → Bool)
    (base : List (Nat × α)) :
    ∀ (ids : List Nat) (data : List α) (working : List (Nat × α)),
      ((∃ e, (gormUpdateBatchLoop upd ok base working ids data).1 = some e) →
        (gormUpdateBatchLoop upd ok base working ids data).2 = base) ∧
      ((gormUpdateBatchLoop upd ok base working ids data).1 = none →
        (gormUpdateBatchLoop upd ok base working ids data).2 =
          applyUpdates upd working (ids.zip data)) := by
  intro ids
  induction ids with
  | nil =>
    intro data working
    constructor
    · rintro ⟨e, he⟩
      simp [gormUpdateBatchLoop] at he
    · intro _
      simp [gormUpdateBatchLoop, applyUpdates]
  | cons i ids ih =>
    intro data working
    cases data with
    | nil =>
      constructor
      · rintro ⟨e, he⟩
        simp [gormUpdateBatchLoop] at he
      · intro _
        simp [gormUpdateBatchLoop, applyUpdates]
    | cons d ds =>
      cases hs : sqlUpdateRows upd ok working i d with
      | error e =>
        constructor
        · intro _
          simp [gormUpdateBatchLoop, hs]
        · intro hnone
          simp [gormUpdateBatchLoop, hs] at hnone
      | ok w =>
        have hw : w = working.map (fun p => if p.1 = i then (p.1, upd p.2 d) else p) := by
          by_cases hc : (working.filter (fun p => p.1 == i)).all (fun p => ok (upd p.2 d))
          · rw [sqlUpdateRows, if_pos hc] at hs
            exact (Except.ok.injEq _ _).mp hs.symm
          · rw [sqlUpdateRows, if_neg hc] at hs
            exact absurd hs (by simp)
        constructor
        · rintro ⟨e, he⟩
          simp only [gormUpdateBatchLoop, hs] at he ⊢
          exact (ih ds w).1 ⟨e, he⟩
        · intro hnone
          simp only [gormUpdateBatchLoop, hs] at hnone ⊢
          rw [(ih ds w).2 hnone, hw]
          rfl

/-- C5: the relational UpdateBatch is all-or-nothing.  With ids and
data of equal length, if any per-id update fails then the returned
error is reported and the committed table is exactly the original one
(re-reading every id shows no row updated), and when no update fails
the commit installs every per-id update applied in order. -/
theorem C5_gorm_updateBatch_atomic (α : Type) (upd : α → α → α) (ok : α → Bool)
    (table : List (Nat × α)) (ids : List Nat) (data : List α)
    (h : ids.length = data.length) :
    ((∃ e, (gormUpdateBatch upd ok table ids data).1 = some e) →
      (gormUpdateBatch upd ok table ids data).2 = table) ∧
    ((gormUpdateBatch upd ok table ids data).1 = none →
      (gormUpdateBatch upd ok table ids data).2 =
        applyUpdates upd table (ids.zip data)) := by
  have hlen : ¬ ids.length ≠ data.length := by omega
  simp only [gormUpdateBatch, if_neg hlen]
  exact gormUpdateBatchLoop_spec upd ok table ids data table

theorem C5_gorm_updateBatch_atomic_witness :
    ([1, 2, 3] : List Nat).length = ([1, -1, 1] : List Int).length ∧
    (gormUpdateBatch (fun _ d => d) (fun v => decide (0 ≤ v))
      [(1, 5), (2, 5), (3, 5)] [1, 2, 3] [1, -1, 1]).2 = [(1, 5), (2, 5), (3, 5)] :=
  ⟨rfl,
    (C5_gorm_updateBatch_atomic Int (fun _ d => d) (fun v => decide (0 ≤ v))
      [(1, 5), (2, 5), (3, 5)] [1, 2, 3] [1, -1, 1] (by decide)).1
      ⟨"constraint violation", by decide⟩⟩

/-- The sequential loop of the document batch update: with a prefix of
valid identifiers followed by an invalid one, the loop stops at the
invalid identifier, returns ErrInvalidID, and the collection keeps
exactly the replaces of the prefix: they were committed one by one with
no enclosing transaction. -/
theorem mongoUpdateBatchLoop_prefix {α : Type} :
    ∀ (pre : List IdArg) (dpre : List α) (coll : List (ObjectID × α))
      (bad : IdArg) (rest : List IdArg) (d : α) (drest : List α),
      pre.length = dpre.length →
      (∀ i ∈ pre, idValid i = true) →
      idValid bad = false →
      mongoUpdateBatchLoop coll (pre ++ bad :: rest) (dpre ++ d :: drest) =
        (some RepoError.invalidID, applyReplaces coll (pre.zip dpre)) := by
  intro pre
  induction pre with
  | nil =>
    intro dpre coll bad rest d drest hlen _ hbad
    have hd : dpre = [] := List.eq_nil_of_length_eq_zero hlen.symm
    subst hd
    cases hb : toObjectID bad with
    | ok o =>
      exfalso
      simp [idValid, hb] at hbad
    | error e =>
      simp [mongoUpdateBatchLoop, hb, applyReplaces]
  | cons i pre ih =>
    intro dpre coll bad rest d drest hlen hvalid hbad
    cases dpre with
    | nil => simp at hlen
    | cons d0 dpre =>
      have hvi : idValid i = true := hvalid i (List.mem_cons_self i pre)
      cases hi : toObjectID i with
      | error e => simp [idValid, hi] at hvi
      | ok oid =>
        simp only [List.cons_append, mongoUpdateBatchLoop, hi, List.append_eq]
        rw [ih dpre (replaceFirst coll oid d0) bad rest d drest
          (by simpa using hlen)
          (fun j hj => hvalid j (List.mem_cons_of_mem i hj)) hbad]
        simp [applyReplaces, hi]

/-- The conversion loop of DeleteBatch fails with ErrInvalidID as soon
as any identifier in the list is invalid. -/
theorem collectObjectIDs_error (ids : List IdArg)
    (h : ∃ i ∈ ids, idValid i = false) :
    collectObjectIDs ids = .error .invalidID := by
  induction ids with
  | nil =>
    rcases h with ⟨i, hi, _⟩
    exact absurd hi (List.not_mem_nil i)
  | cons a t ih =>
    cases ha : toObjectID a with
    | error e => simp [collectObjectIDs, ha]
    | ok o =>
      rcases h with ⟨i, hmem, hinv⟩
      rcases List.mem_cons.mp hmem with rfl | hit
      · simp [idValid, ha] at hinv
      · simp [collectObjectIDs, ha, ih ⟨i, hit, hinv⟩, Except.map]

/-- C6: document-adapter batch mutation is sequential with no enclosing
multi-document transaction.  UpdateBatch with a valid prefix of
identifiers followed by an invalid one returns the failing step's
ErrInvalidID, and the replaces of the prefix stay committed (in
particular the first id's update persists).  DeleteBatch converts the
identifiers sequentially: any invalid identifier aborts the call with
ErrInvalidID before any deletion (so no prior mutation exists to roll
back), and with all identifiers valid it issues one DeleteMany removing
exactly the listed identifiers. -/
theorem C6_mongo_batch_no_transaction :
    (∀ (α : Type) (coll : List (ObjectID × α)) (pre : List IdArg) (dpre : List α)
        (bad : IdArg) (rest : List IdArg) (d : α) (drest : List α),
      pre.length = dpre.length → rest.length = drest.length →
      (∀ i ∈ pre, idValid i = true) → idValid bad = false →
      mongoUpdateBatch coll (pre ++ bad :: rest) (dpre ++ d :: drest) =
        (some RepoError.invalidID, applyReplaces coll (pre.zip dpre))) ∧
    (∀ (α : Type) (coll : List (ObjectID × α)) (ids : List IdArg),
      (∃ i ∈ ids, idValid i = false) →
      mongoDeleteBatch coll ids = (some RepoError.invalidID, coll)) ∧
    (∀ (α : Type) (coll : List (ObjectID × α)) (ids : List IdArg)
        (oids : List ObjectID),
      collectObjectIDs ids = .ok oids →
      mongoDeleteBatch coll ids = (none, coll.filter (fun p => !(oids.contains p.1)))) := by
  refine ⟨?_, ?_, ?_⟩
  · intro α coll pre dpre bad rest d drest h1 h2 hvalid hbad
    have hlen : ¬ (pre ++ bad :: rest).length ≠ (dpre ++ d :: drest).length := by
      simp [h1, h2]
    rw [mongoUpdateBatch, if_neg hlen]
    exact mongoUpdateBatchLoop_prefix pre dpre coll bad rest d drest h1 hvalid hbad
  · intro α coll ids h
    rw [mongoDeleteBatch, collectObjectIDs_error ids h]
  · intro α coll ids oids h
    rw [mongoDeleteBatch, h]

theorem C6_mongo_batch_no_transaction_witness :
    (([IdArg.oid [1]] : List IdArg).length = ([7] : List Int).length ∧
      idValid (IdArg.str "zzz") = false ∧
      applyReplaces [([1], (0 : Int)), ([2], 0)] [(IdArg.oid [1], 7)] =
        [([1], 7), ([2], 0)]) ∧
    mongoUpdateBatch [([1], (0 : Int)), ([2], 0)]
        [IdArg.oid [1], IdArg.str "zzz"] [7, 8] =
      (some RepoError.invalidID,
        applyReplaces [([1], (0 : Int)), ([2], 0)] [(IdArg.oid [1], 7)]) :=
  ⟨⟨rfl, by decide, by decide⟩,
    C6_mongo_batch_no_transaction.1 Int [([1], 0), ([2], 0)] [IdArg.oid [1]] [7]
      (.str "zzz") [] 8 [] rfl rfl (by decide) (by decide)⟩

/-- A second atomic update on the same identifier and field cancels the
first when the two deltas sum to zero pointwise. -/
theorem incFirst_cancel (coll : List (ObjectID × NumRec)) (oid : ObjectID)
    (field : String) (n : Int) :
    incFirst (incFirst coll oid field n) oid field (-n) = coll := by
  induction coll with
  | nil => rfl
  | cons p t ih =>
    cases hp : p.1 == oid with
    | true =>
      simp only [incFirst, hp, if_true]
      have hfun : (fun f => if f = field then
          (if f = field then p.2 f + n else p.2 f) + -n
          else if f = field then p.2 f + n else p.2 f) = p.2 := by
        funext f
        by_cases hf : f = field <;> simp [hf]
      simp [hfun]
    | false =>
      simp only [incFirst, hp, Bool.false_eq_true, if_false]
      rw [ih]

/-- C7: Decrement is Increment with the negated delta on both adapters,
and an Increment followed by the matching Decrement restores every
stored field: on the relational adapter the composed table equals the
original table, and on the document adapter the composed call succeeds
exactly when the increment did and then returns the original
collection. -/
theorem C7_decrement_is_negated_increment :
    (∀ (table : List (Nat × NumRec)) (i : Nat) (field : String) (n : Int),
      gormDecrement table i field n = gormIncrement table i field (-n)) ∧
    (∀ (coll : List (ObjectID × NumRec)) (i : IdArg) (field : String) (n : Int),
      mongoDecrement coll i field n = mongoIncrement coll i field (-n)) ∧
    (∀ (table : List (Nat × NumRec)) (i : Nat) (field : String) (n : Int),
      gormDecrement (gormIncrement table i field n) i field n = table) ∧
    (∀ (coll : List (ObjectID × NumRec)) (i : IdArg) (field : String) (n : Int),
      (mongoIncrement coll i field n >>= fun c2 => mongoDecrement c2 i field n) =
        Except.map (fun _ => coll) (mongoIncrement coll i field n)) := by
  refine ⟨?_, ?_, ?_, ?_⟩
  · intro table i field n
    unfold gormDecrement gormIncrement
    have hfun : (fun (p : Nat × NumRec) =>
        if p.1 = i then (p.1, fun f => if f = field then p.2 f - n else p.2 f) else p) =
        (fun (p : Nat × NumRec) =>
          if p.1 = i then (p.1, fun f => if f = field then p.2 f + -n else p.2 f) else p) := by
      funext p
      by_cases hp : p.1 = i
      · simp only [if_pos hp, Prod.mk.injEq, true_and]
        funext f
        by_cases hf : f = field <;> simp [hf, sub_eq_add_neg]
      · simp [hp]
    rw [hfun]
  · intro coll i field n
    rfl
  · intro table i field n
    unfold gormDecrement gormIncrement
    rw [List.map_map]
    have hfun : ∀ p ∈ table,
        ((fun (p : Nat × NumRec) =>
            if p.1 = i then (p.1, fun f => if f = field then p.2 f - n else p.2 f) else p) ∘
          (fun (p : Nat × NumRec) =>
            if p.1 = i then (p.1, fun f => if f = field then p.2 f + n else p.2 f) else p)) p =
        id p := by
      intro p _
      by_cases hp : p.1 = i
      · simp only [Function.comp_apply, if_pos hp, id_eq]
        have : (fun f => if f = field then
            (if f = field then p.2 f + n else p.2 f) - n
            else if f = field then p.2 f + n else p.2 f) = p.2 := by
          funext f
          by_cases hf : f = field <;> simp [hf]
        rw [this]
      · simp [Function.comp_apply, hp]
    rw [List.map_congr_left hfun, List.map_id]
  · intro coll i field n
    cases hi : toObjectID i with
    | error e =>
      simp [mongoIncrement, mongoDecrement, hi, Except.map, Bind.bind, Except.bind]
    | ok oid =>
      simp [mongoIncrement, mongoDecrement, hi, Except.map, Bind.bind, Except.bind,
        incFirst_cancel]

/-- C8 counterexample: the operator-based LIKE conversion of
toBSONFilter applied to the pattern with an underscore wildcard leaves
the underscore unreplaced: the produced regex is the pattern itself,
not the conversion with underscore mapped to dot that the claim
states. -/
theorem C8_like_underscore_counterexample :
    toBSONFilter "name" "LIKE" (.str "a_b") = ("name", BCond.regex "a_b" "i") ∧
    BCond.regex "a_b" "i" ≠ BCond.regex (sqlLikeToRegex "a_b") "i" :=
  ⟨rfl, by decide⟩

/-- C8 amended: WhereLike converts the SQL pattern by replacing every
percent with dot-star and every underscore with dot and sets the case
insensitive option; the operator-based LIKE and NOT LIKE conversions of
toBSONFilter replace only the percent wildcard (the underscore is left
as a literal) and also always set the case insensitive option. -/
theorem C8_like_conversion :
    (∀ (field pattern : String) (filter : List (String × BCond)),
      mongoWhereLike field pattern filter =
        mapSet filter field
          (BCond.regex (goReplaceAll (goReplaceAll pattern '%' ".*") '_' ".") "i")) ∧
    (∀ (field : String) (v : GoVal),
      toBSONFilter field "LIKE" v =
        (field, BCond.regex (goReplaceAll (goFormat v) '%' ".*") "i") ∧
      toBSONFilter field "NOT LIKE" v =
        (field, BCond.notRegex (goReplaceAll (goFormat v) '%' ".*") "i")) ∧
    sqlLikeToRegex "a_b%" = "a.b.*" :=
  ⟨fun _ _ _ => rfl, fun _ _ => ⟨rfl, rfl⟩, by decide⟩

/-- C9 counterexample: the relational PluckInt scans the column into a
typed destination; a NULL column value does not convert to int, and it
does not get silently dropped: the whole call fails with a scan error
instead of returning the remaining values. -/
theorem C9_gorm_pluck_error_counterexample :
    gormPluckInt [SQLVal.int 1, SQLVal.null] =
      .error "sql: Scan error: converting NULL to int is unsupported" ∧
    gormPluckInt [SQLVal.int 1, SQLVal.null] ≠ .ok [1] := by
  constructor
  · rfl
  · intro h
    rw [show gormPluckInt [SQLVal.int 1, SQLVal.null] =
        .error "sql: Scan error: converting NULL to int is unsupported" from rfl] at h
    exact nomatch h

/-- A fallible per-element map succeeds on a list in which every
element converts and returns exactly the converted values in order. -/
theorem mapM_except_all_ok {α β : Type} (f : α → Except String β) :
    ∀ (col : List α), (∀ a ∈ col, ∃ b, f a = .ok b) →
      col.mapM f = .ok (col.filterMap (fun a => (f a).toOption)) := by
  intro col
  induction col with
  | nil => intro _; rfl
  | cons a t ih =>
    intro h
    obtain ⟨b, hb⟩ := h a (List.mem_cons_self a t)
    have ih2 : List.mapM.loop f t [] =
        Except.ok (t.filterMap (fun a => (f a).toOption)) :=
      ih (fun x hx => h x (List.mem_cons_of_mem a hx))
    rw [List.mapM_cons]
    simp [hb, ih2, Bind.bind, Except.bind, List.filterMap_cons, Except.toOption,
      pure, Except.pure]

/-- A fallible per-element map fails on a list containing an element
that does not convert. -/
theorem mapM_except_error {α β : Type} (f : α → Except String β) :
    ∀ (col : List α), (∃ a ∈ col, ∀ b, f a ≠ .ok b) →
      ∃ e, col.mapM f = .error e := by
  intro col
  induction col with
  | nil =>
    rintro ⟨a, ha, _⟩
    exact absurd ha (List.not_mem_nil a)
  | cons a t ih =>
    rintro ⟨x, hmem, hx⟩
    cases hfa : f a with
    | error e =>
      refine ⟨e, ?_⟩
      rw [List.mapM_cons]
      simp [hfa, Bind.bind, Except.bind]
    | ok b =>
      rcases List.mem_cons.mp hmem with rfl | hit
      · exact absurd hfa (hx b)
      · obtain ⟨e, he⟩ := ih ⟨x, hit, hx⟩
        have he2 : List.mapM.loop f t [] = Except.error e := he
        refine ⟨e, ?_⟩
        rw [List.mapM_cons]
        simp [hfa, he2, Bind.bind, Except.bind]

/-- The boolean scan test agrees with the scan result for int
destinations. -/
theorem scanIntOk_iff (v : SQLVal) : scanIntOk v = true ↔ ∃ b, scanInt v = .ok b := by
  cases v with
  | null => simp [scanIntOk, scanInt]
  | int n => simp [scanIntOk, scanInt]
  | text s => cases hs : s.toInt? <;> simp [scanIntOk, scanInt, hs]

/-- The boolean scan test agrees with the scan result for string
destinations. -/
theorem scanStringOk_iff (v : SQLVal) :
    scanStringOk v = true ↔ ∃ b, scanString v = .ok b := by
  cases v with
  | null => simp [scanStringOk, scanString]
  | int n => simp [scanStringOk, scanString]
  | text s => simp [scanStringOk, scanString]

/-- C9 amended: the document adapter narrows by a Go type assertion,
keeping in order exactly the plucked values whose dynamic type is the
target type, dropping every other value, and it cannot fail; the
relational adapter scans the whole column through the driver
conversion: it returns all converted values when every value converts,
and fails the entire call with a scan error (dropping nothing) as soon
as one value does not convert. -/
theorem C9_pluck_narrowing :
    (∀ (field : String) (docs : List MongoDoc),
      mongoPluckString field docs = docs.filterMap (fun doc =>
        match doc.lookup field with
        | some (GoVal.str s) => some s
        | _ => none) ∧
      mongoPluckInt field docs = docs.filterMap (fun doc =>
        match doc.lookup field with
        | some (GoVal.int n) => some n
        | _ => none)) ∧
    (∀ (col : List SQLVal),
      ((∀ v ∈ col, scanIntOk v = true) →
        gormPluckInt col = .ok (col.filterMap (fun v => (scanInt v).toOption))) ∧
      ((∃ v ∈ col, scanIntOk v = false) → ∃ e, gormPluckInt col = .error e)) ∧
    (∀ (col : List SQLVal),
      ((∀ v ∈ col, scanStringOk v = true) →
        gormPluckString col = .ok (col.filterMap (fun v => (scanString v).toOption))) ∧
      ((∃ v ∈ col, scanStringOk v = false) → ∃ e, gormPluckString col = .error e)) := by
  refine ⟨?_, ?_, ?_⟩
  · intro field docs
    constructor
    · rw [mongoPluckString, mongoPluck, List.filterMap_filterMap]
      refine List.filterMap_congr (fun doc _ => ?_)
      cases hd : doc.lookup field with
      | none => simp [Option.bind, hd]
      | some v => cases v <;> simp [Option.bind, hd]
    · rw [mongoPluckInt, mongoPluck, List.filterMap_filterMap]
      refine List.filterMap_congr (fun doc _ => ?_)
      cases hd : doc.lookup field with
      | none => simp [Option.bind, hd]
      | some v => cases v <;> simp [Option.bind, hd]
  · intro col
    constructor
    · intro hall
      exact mapM_except_all_ok scanInt col (fun a ha => (scanIntOk_iff a).mp (hall a ha))
    · rintro ⟨v, hmem, hv⟩
      refine mapM_except_error scanInt col ⟨v, hmem, fun b hb => ?_⟩
      rw [(scanIntOk_iff v).mpr ⟨b, hb⟩] at hv
      exact nomatch hv
  · intro col
    constructor
    · intro hall
      exact mapM_except_all_ok scanString col
        (fun a ha => (scanStringOk_iff a).mp (hall a ha))
    · rintro ⟨v, hmem, hv⟩
      refine mapM_except_error scanString col ⟨v, hmem, fun b hb => ?_⟩
      rw [(scanStringOk_iff v).mpr ⟨b, hb⟩] at hv
      exact nomatch hv

theorem C9_pluck_narrowing_witness :
    (∀ v ∈ ([SQLVal.int 1, SQLVal.int 2] : List SQLVal), scanIntOk v = true) ∧
    gormPluckInt [SQLVal.int 1, SQLVal.int 2] = .ok [1, 2] :=
  ⟨by decide, (C9_pluck_narrowing.2.1 [SQLVal.int 1, SQLVal.int 2]).1 (by decide)⟩
/-- Replacing the binding of a present key makes its lookup the new
value. -/
theorem lookup_map_set_eq {α : Type} (k : String) (v : α) :
    ∀ m : List (String × α), (m.lookup k).isSome →
      (m.map (fun p => if p.1 = k then (k, v) else p)).lookup k = some v := by
  intro m
  induction m with
  | nil => intro hm; simp [List.lookup] at hm
  | cons p t ih =>
    obtain ⟨a, b⟩ := p
    intro hm
    simp only [List.map_cons]
    by_cases ha : a = k
    · rw [show (if ((a, b) : String × α).1 = k then (k, v) else ((a, b) : String × α)) =
          (k, v) from if_pos ha]
      simp [List.lookup]
    · rw [show (if ((a, b) : String × α).1 = k then (k, v) else ((a, b) : String × α)) =
          (a, b) from if_neg ha]
      have hka : (k == a) = false := beq_eq_false_iff_ne.mpr (Ne.symm ha)
      simp only [List.lookup, hka] at hm ⊢
      exact ih hm

/-- Appending a binding for an absent key makes its lookup the new
value. -/
theorem lookup_append_single {α : Type} (k : String) (v : α) :
    ∀ m : List (String × α), m.lookup k = none →
      (m ++ [(k, v)]).lookup k = some v := by
  intro m
  induction m with
  | nil => simp [List.lookup]
  | cons p t ih =>
    obtain ⟨a, b⟩ := p
    intro hm
    cases hka : k == a with
    | true => simp [List.lookup, hka] at hm
    | false =>
      simp only [List.lookup, hka] at hm
      simp only [List.cons_append, List.lookup, hka]
      exact ih hm

/-- Go map assignment: looking the assigned key up yields the assigned
value. -/
theorem lookup_mapSet_self {α : Type} (m : List (String × α)) (k : String) (v : α) :
    (mapSet m k v).lookup k = some v := by
  rw [mapSet]
  by_cases hm : (m.lookup k).isSome
  · rw [if_pos hm]
    exact lookup_map_set_eq k v m hm
  · rw [if_neg hm]
    exact lookup_append_single k v m (Option.not_isSome_iff_eq_none.mp hm)

/-- Replacing the binding of one key leaves the lookup of every other
key unchanged. -/
theorem lookup_map_set_other {α : Type} (k k' : String) (v : α) (h : k' ≠ k) :
    ∀ m : List (String × α),
      (m.map (fun p => if p.1 = k then (k, v) else p)).lookup k' = m.lookup k' := by
  intro m
  induction m with
  | nil => rfl
  | cons p t ih =>
    obtain ⟨a, b⟩ := p
    simp only [List.map_cons]
    by_cases ha : a = k
    · rw [show (if ((a, b) : String × α).1 = k then (k, v) else ((a, b) : String × α)) =
          (k, v) from if_pos ha]
      subst ha
      have hk : (k' == a) = false := by simp [h]
      simp only [List.lookup, hk]
      exact ih
    · rw [show (if ((a, b) : String × α).1 = k then (k, v) else ((a, b) : String × α)) =
          (a, b) from if_neg ha]
      cases hka : k' == a with
      | true => simp [List.lookup, hka]
      | false =>
        simp only [List.lookup, hka]
        exact ih

/-- Appending a binding for one key leaves the lookup of every other
key unchanged. -/
theorem lookup_append_single_other {α : Type} (k k' : String) (v : α) (h : k' ≠ k) :
    ∀ m : List (String × α), (m ++ [(k, v)]).lookup k' = m.lookup k' := by
  intro m
  induction m with
  | nil =>
    have hk : (k' == k) = false := beq_eq_false_iff_ne.mpr h
    simp [List.lookup, hk]
  | cons p t ih =>
    obtain ⟨a, b⟩ := p
    cases hka : k' == a with
    | true => simp [List.lookup, hka]
    | false =>
      simp only [List.cons_append, List.lookup, hka]
      exact ih

/-- Go map assignment: the lookup of every other key is unchanged. -/
theorem lookup_mapSet_ne {α : Type} (m : List (String × α)) (k k' : String) (v : α)
    (h : k' ≠ k) :
    (mapSet m k v).lookup k' = m.lookup k' := by
  rw [mapSet]
  by_cases hm : (m.lookup k).isSome
  · rw [if_pos hm]
    exact lookup_map_set_other k k' v h m
  · rw [if_neg hm]
    exact lookup_append_single_other k k' v h m

/-- C10 counterexample: bound to the repository models, which all
declare an UpdatedAt field, the relational query-level Update does not
write only the caller fields: for a caller map carrying only a name
assignment, the generated UPDATE also assigns updated_at, a column the
caller map does not mention. -/
theorem C10_gorm_autotimestamp_counterexample :
    (gormQueryUpdate [("name", GoVal.str "x")] 5).op =
      UpdateOp.set [("name", GoVal.str "x"), ("updated_at", GoVal.int64 5)] ∧
    ([("name", GoVal.str "x")] : List (String × GoVal)).lookup "updated_at" =
      none ∧
    UpdateOp.set [("name", GoVal.str "x"), ("updated_at", GoVal.int64 5)] ≠
      UpdateOp.set [("name", GoVal.str "x")] := by
  refine ⟨rfl, rfl, by decide⟩

/-- C10 amended: the document adapter writes one $set holding exactly
the caller fields plus updated_at set to the current time, inserting
updated_at into the caller map as a side effect; the relational
adapter leaves the caller map untouched, and its generated UPDATE
assigns the caller fields unchanged plus an automatic updated_at
column: that column reads the current time when the caller map lacks
it and the caller value when the map supplies one. -/
theorem C10_query_update_writes :
    (∀ (data : List (String × GoVal)) (now : Int),
      (mongoQueryUpdate data now).op =
        UpdateOp.set ((mongoQueryUpdate data now).dataAfter) ∧
      ((mongoQueryUpdate data now).dataAfter).lookup "updated_at" =
        some (GoVal.int64 now) ∧
      (∀ k, k ≠ "updated_at" →
        ((mongoQueryUpdate data now).dataAfter).lookup k = data.lookup k)) ∧
    (∀ (data : List (String × GoVal)) (now : Int),
      (gormQueryUpdate data now).dataAfter = data ∧
      (gormQueryUpdate data now).op = UpdateOp.set (gormUpdateWrites data now) ∧
      ((gormUpdateWrites data now).lookup "updated_at" =
        if (data.lookup "updated_at").isSome then data.lookup "updated_at"
        else some (GoVal.int64 now)) ∧
      (∀ k, k ≠ "updated_at" →
        (gormUpdateWrites data now).lookup k = data.lookup k)) := by
  constructor
  · intro data now
    refine ⟨rfl, ?_, ?_⟩
    · exact lookup_mapSet_self data "updated_at" (GoVal.int64 now)
    · intro k hk
      exact lookup_mapSet_ne data "updated_at" k (GoVal.int64 now) hk
  · intro data now
    refine ⟨rfl, rfl, ?_, ?_⟩
    · by_cases hm : (data.lookup "updated_at").isSome
      · rw [if_pos hm, gormUpdateWrites, if_pos hm]
      · rw [if_neg hm, gormUpdateWrites, if_neg hm]
        exact lookup_append_single "updated_at" (GoVal.int64 now) data
          (Option.not_isSome_iff_eq_none.mp hm)
    · intro k hk
      rw [gormUpdateWrites]
      by_cases hm : (data.lookup "updated_at").isSome
      · rw [if_pos hm]
      · rw [if_neg hm]
        exact lookup_append_single_other "updated_at" k (GoVal.int64 now) hk data

theorem C10_query_update_writes_witness :
    ("name" ≠ "updated_at") ∧
    ((mongoQueryUpdate [("name", GoVal.str "x")] 5).dataAfter).lookup "name" =
      some (GoVal.str "x") ∧
    (gormUpdateWrites [("name", GoVal.str "x")] 5).lookup "name" =
      some (GoVal.str "x") := by
  refine ⟨by decide, ?_, ?_⟩
  · have h :=
      (C10_query_update_writes.1 [("name", GoVal.str "x")] 5).2.2 "name" (by decide)
    rw [h]
    rfl
  · have h :=
      (C10_query_update_writes.2 [("name", GoVal.str "x")] 5).2.2.2 "name" (by decide)
    rw [h]
    rfl
